import Mathlib

/-!
Verification of a fixed-arena best-fit memory allocator (Rust, `src/main.rs`),
shallowly embedded in Lean 4.

The arena is a 65535-byte buffer; free blocks are kept in a
`BTreeMap<usize, Vec<MemoryBlock>>` keyed by size, allocated blocks in a
`BTreeMap<usize, MemoryBlock>` keyed by id.  `BTreeMap`s are modelled as
association lists sorted by key (which is the map's iteration order); `Vec`
is a `List` with `push` appending at the back and `pop` removing the back.
Bytes are modelled as `Nat`s; the arena is a function `Nat → Nat`.
Rust panics (out-of-range slicing, `copy_from_slice` length mismatch) are
modelled as `Except.error ()`: a panic aborts the process, so no further
state exists.
-/

open scoped List

def MEMORY_SIZE : Nat := 65535

structure MemoryBlock where
  start : Nat
  size : Nat
  allocated : Bool
  id : Option Nat
deriving DecidableEq

abbrev FreeMap := List (Nat × List MemoryBlock)

abbrev AllocMap := List (Nat × MemoryBlock)

structure MemoryManager where
  memory : Nat → Nat
  free_blocks : FreeMap
  allocated_blocks : AllocMap
  next_id : Nat

/-- `BTreeMap::get`. -/
def mapLookup {α : Type} : List (Nat × α) → Nat → Option α
  | [], _ => none
  | (k, v) :: rest, k0 => if k = k0 then some v else mapLookup rest k0

/-- `BTreeMap::remove` with the returned value discarded. -/
def mapRemoveKey {α : Type} : List (Nat × α) → Nat → List (Nat × α)
  | [], _ => []
  | (k, v) :: rest, k0 => if k = k0 then rest else (k, v) :: mapRemoveKey rest k0

/-- Overwriting the value stored under an existing key (the in-place `Vec`
mutation performed through `iter_mut`). -/
def mapSetExisting {α : Type} : List (Nat × α) → Nat → α → List (Nat × α)
  | [], _, _ => []
  | (k, v) :: rest, k0, v0 =>
    if k = k0 then (k, v0) :: rest else (k, v) :: mapSetExisting rest k0 v0

/-- `BTreeMap::insert`, keeping the association list sorted by key. -/
def mapInsert {α : Type} : List (Nat × α) → Nat → α → List (Nat × α)
  | [], k0, v0 => [(k0, v0)]
  | (k, v) :: rest, k0, v0 =>
    if k0 < k then (k0, v0) :: (k, v) :: rest
    else if k0 = k then (k0, v0) :: rest
    else (k, v) :: mapInsert rest k0 v0

/-- `BTreeMap::remove`, returning the removed value and the remaining map. -/
def mapRemove {α : Type} : List (Nat × α) → Nat → Option α × List (Nat × α)
  | [], _ => (none, [])
  | (k, v) :: rest, k0 =>
    if k = k0 then (some v, rest)
    else
      let r := mapRemove rest k0
      (r.1, (k, v) :: r.2)

/-- `free_blocks.entry(k).or_insert_with(Vec::new).push(b)`. -/
def entryPush (fb : FreeMap) (k0 : Nat) (b : MemoryBlock) : FreeMap :=
  match fb with
  | [] => [(k0, [b])]
  | (k, l) :: rest =>
    if k0 < k then (k0, [b]) :: (k, l) :: rest
    else if k0 = k then (k, l ++ [b]) :: rest
    else (k, l) :: entryPush rest k0 b

/-- `Iterator::min_by_key` on the key of each entry: the first entry with the
minimal key (Rust's `min_by_key` returns the first of equal minima). -/
def minByKey {α : Type} : List (Nat × α) → Option (Nat × α)
  | [] => none
  | p :: rest =>
    match minByKey rest with
    | none => some p
    | some q => if p.1 ≤ q.1 then some p else some q

/-- `self.free_blocks.iter_mut().filter(|(block_size, _)| **block_size >= size).min_by_key(...)`. -/
def bestFit (fb : FreeMap) (size : Nat) : Option (Nat × List MemoryBlock) :=
  minByKey (fb.filter (fun p => size ≤ p.1))

/-- `self.memory[start..start + len].copy_from_slice(&data)`: `none` models the
panic raised either by an out-of-range slice or by a slice-length mismatch. -/
def copyFromSlice (mem : Nat → Nat) (start len : Nat) (data : List Nat) :
    Option (Nat → Nat) :=
  if start + len ≤ MEMORY_SIZE ∧ data.length = len then
    some (fun i => if start ≤ i ∧ i < start + len then data.getD (i - start) 0 else mem i)
  else none

/-- `MemoryManager::new()`. -/
def MemoryManager.new : MemoryManager :=
  { memory := fun _ => 0
    free_blocks := [(MEMORY_SIZE, [⟨0, MEMORY_SIZE, false, none⟩])]
    allocated_blocks := []
    next_id := 0 }

/-- `MemoryManager::insert(size, data)`.  `Except.error ()` is the panic of the
byte copy; `.ok (none, _)` is the `None` return (allocation failure). -/
def MemoryManager.insert (m : MemoryManager) (size : Nat) (data : List Nat) :
    Except Unit (Option Nat × MemoryManager) :=
  match bestFit m.free_blocks size with
  | none => .ok (none, m)
  | some (block_size, blocks) =>
    match blocks.getLast? with
    | none => .ok (none, m)
    | some block =>
      let popped := blocks.dropLast
      let fb1 := if popped = [] then mapRemoveKey m.free_blocks block_size
                 else mapSetExisting m.free_blocks block_size popped
      let new_id := m.next_id
      match copyFromSlice m.memory block.start size data with
      | none => .error ()
      | some mem' =>
        let allocated_block : MemoryBlock := ⟨block.start, size, true, some new_id⟩
        let fb2 := if size < block.size then
            entryPush fb1 (block.size - size)
              ⟨block.start + size, block.size - size, false, none⟩
          else fb1
        .ok (some new_id,
          { memory := mem'
            free_blocks := fb2
            allocated_blocks := mapInsert m.allocated_blocks new_id allocated_block
            next_id := m.next_id + 1 })

/-- `MemoryManager::delete(id)`.  The `Bool` records which message was printed
(`true` for "Deleted ID", `false` for "Error: ID not found"). -/
def MemoryManager.delete (m : MemoryManager) (id : Nat) : Bool × MemoryManager :=
  match mapRemove m.allocated_blocks id with
  | (some block, ab') =>
    (true,
      { m with
        allocated_blocks := ab'
        free_blocks := entryPush m.free_blocks block.size
          ⟨block.start, block.size, false, none⟩ })
  | (none, _) => (false, m)

/-- `&self.memory[start..start + len]`. -/
def sliceBytes (mem : Nat → Nat) (start len : Nat) : List Nat :=
  (List.range len).map (fun i => mem (start + i))

/-- `MemoryManager::find(id)`; the `Except` layer models the panic of an
out-of-range slice (never reached from well-formed states). -/
def MemoryManager.find (m : MemoryManager) (id : Nat) :
    Except Unit (Option (List Nat)) :=
  match mapLookup m.allocated_blocks id with
  | none => .ok none
  | some block =>
    if block.start + block.size ≤ MEMORY_SIZE then
      .ok (some (sliceBytes m.memory block.start block.size))
    else .error ()

/-- What `MemoryManager::read(id)` prints: note the source prints the
`MemoryBlock` value returned by `allocated_blocks.get(&id)` (via `{:?}`),
not the stored bytes. -/
inductive ReadOutput where
  | dataAt (id : Nat) (block : MemoryBlock)
  | notFound (id : Nat)
deriving DecidableEq

/-- `MemoryManager::read(id)`. -/
def MemoryManager.read (m : MemoryManager) (id : Nat) : ReadOutput :=
  match mapLookup m.allocated_blocks id with
  | some block => .dataAt id block
  | none => .notFound id

inductive UpdateResult where
  | updated
  | tooLarge
  | notFound
deriving DecidableEq

/-- `MemoryManager::update(id, new_data)`; the copy always has matching
lengths, so only an out-of-range slice can panic. -/
def MemoryManager.update (m : MemoryManager) (id : Nat) (new_data : List Nat) :
    Except Unit (UpdateResult × MemoryManager) :=
  match mapLookup m.allocated_blocks id with
  | some block =>
    if new_data.length ≤ block.size then
      match copyFromSlice m.memory block.start new_data.length new_data with
      | none => .error ()
      | some mem' => .ok (.updated, { m with memory := mem' })
    else .ok (.tooLarge, m)
  | none => .ok (.notFound, m)

/-! ### Operation traces -/

inductive Op where
  | insert (size : Nat) (data : List Nat)
  | delete (id : Nat)
  | update (id : Nat) (data : List Nat)
  | find (id : Nat)
  | read (id : Nat)
  | dump
deriving DecidableEq

inductive OpResult where
  | allocOk (id : Nat)
  | allocFail
  | deleteOk
  | deleteNotFound
  | updateOk
  | updateTooLarge
  | updateNotFound
  | findRes (r : Option (List Nat))
  | readRes (r : ReadOutput)
  | dumped
deriving DecidableEq

def applyOp (m : MemoryManager) : Op → Except Unit (OpResult × MemoryManager)
  | .insert size data =>
    match m.insert size data with
    | .error e => .error e
    | .ok (some id, m') => .ok (.allocOk id, m')
    | .ok (none, m') => .ok (.allocFail, m')
  | .delete id =>
    match m.delete id with
    | (true, m') => .ok (.deleteOk, m')
    | (false, m') => .ok (.deleteNotFound, m')
  | .update id data =>
    match m.update id data with
    | .error e => .error e
    | .ok (.updated, m') => .ok (.updateOk, m')
    | .ok (.tooLarge, m') => .ok (.updateTooLarge, m')
    | .ok (.notFound, m') => .ok (.updateNotFound, m')
  | .find id =>
    match m.find id with
    | .error e => .error e
    | .ok r => .ok (.findRes r, m)
  | .read id => .ok (.readRes (m.read id), m)
  | .dump => .ok (.dumped, m)

def run (m : MemoryManager) : List Op → Except Unit (List OpResult × MemoryManager)
  | [] => .ok ([], m)
  | op :: ops =>
    match applyOp m op with
    | .error e => .error e
    | .ok (r, m') =>
      match run m' ops with
      | .error e => .error e
      | .ok (rs, m'') => .ok (r :: rs, m'')

/-! ### Observations used to state the claims -/

def freeListFB (fb : FreeMap) : List MemoryBlock := fb.flatMap Prod.snd

def allocListAB (ab : AllocMap) : List MemoryBlock := ab.map Prod.snd

def MemoryManager.liveBlocks (m : MemoryManager) : List MemoryBlock :=
  freeListFB m.free_blocks ++ allocListAB m.allocated_blocks

def sumSizes (l : List MemoryBlock) : Nat := (l.map MemoryBlock.size).sum

def freeCount (m : MemoryManager) : Nat := (freeListFB m.free_blocks).length

/-- Two extents share a byte of the arena. -/
def extentsIntersect (a b : MemoryBlock) : Prop :=
  ∃ x, (a.start ≤ x ∧ x < a.start + a.size) ∧ (b.start ≤ x ∧ x < b.start + b.size)

/-- Separation of two half-open extents. -/
def disjointExtents (a b : MemoryBlock) : Prop :=
  a.start + a.size ≤ b.start ∨ b.start + b.size ≤ a.start

/-- `a` lies inside `b`. -/
def within (a b : MemoryBlock) : Prop :=
  b.start ≤ a.start ∧ a.start + a.size ≤ b.start + b.size

/-- Result, free index and allocation table of an `insert`, hiding the arena
function so the observation is decidable. -/
def insertObs (m : MemoryManager) (size : Nat) (data : List Nat) :
    Option (Option Nat × FreeMap × AllocMap) :=
  match m.insert size data with
  | .ok (r, m') => some (r, m'.free_blocks, m'.allocated_blocks)
  | .error _ => none

/-- Results, free index and allocation table after a trace. -/
def runObs (m : MemoryManager) (ops : List Op) :
    Option (List OpResult × FreeMap × AllocMap) :=
  match run m ops with
  | .ok (rs, m') => some (rs, m'.free_blocks, m'.allocated_blocks)
  | .error _ => none

/-- Results of a trace started from the fresh manager. -/
def runResults (ops : List Op) : Option (List OpResult) :=
  match run MemoryManager.new ops with
  | .ok (rs, _) => some rs
  | .error _ => none

/-- The ids returned by the successful allocations of a trace, in order. -/
def allocIds : List OpResult → List Nat
  | [] => []
  | .allocOk id :: rs => id :: allocIds rs
  | _ :: rs => allocIds rs

/-! ### The command dispatcher (`process_file`)

Lines are modelled as lists of characters and the printed output as a list
of structured messages.  The `List ACall` component records which allocator
operation (if any) each command issued.  Only ASCII input is modelled
(token bytes are the character codes). -/

/-- ASCII whitespace, for `str::split_whitespace` (codes 32, 9, 10, 13). -/
def isWsChar (c : Char) : Bool :=
  c.toNat = 32 || c.toNat = 9 || c.toNat = 10 || c.toNat = 13

def splitWsAux : List Char → List Char → List (List Char)
  | [], acc => if acc = [] then [] else [acc.reverse]
  | c :: cs, acc =>
    if isWsChar c then
      if acc = [] then splitWsAux cs [] else acc.reverse :: splitWsAux cs []
    else splitWsAux cs (c :: acc)

/-- `str::split_whitespace().collect()`. -/
def splitWhitespace (cs : List Char) : List (List Char) := splitWsAux cs []

/-- Value of an ASCII digit. -/
def digitVal (c : Char) : Option Nat :=
  if 48 ≤ c.toNat ∧ c.toNat ≤ 57 then some (c.toNat - 48) else none

def parseDigits : List Char → Nat → Option Nat
  | [], acc => some acc
  | c :: cs, acc =>
    match digitVal c with
    | some d => parseDigits cs (acc * 10 + d)
    | none => none

/-- `str::parse::<usize>()`: an optional leading plus sign (code 43) followed
by one or more ASCII digits.  Overflow beyond the machine word is not
modelled (no command in scope depends on it). -/
def parseUsize : List Char → Option Nat
  | [] => none
  | c :: cs =>
    if c.toNat = 43 then
      match cs with
      | [] => none
      | _ :: _ => parseDigits cs 0
    else
      match digitVal c with
      | some d => parseDigits cs d
      | none => none

/-- The allocator calls a command can issue. -/
inductive ACall where
  | insert (size : Nat) (data : List Nat)
  | delete (id : Nat)
  | find (id : Nat)
  | read (id : Nat)
  | update (id : Nat) (data : List Nat)
  | dump
deriving DecidableEq

/-- One printed line of `process_file` (and of the manager methods it calls). -/
inductive Msg where
  | processingLine (line : List Char)
  | errInvalidInsert
  | allocatedId (id : Nat)
  | memAllocationFailed
  | errInvalidDelete
  | deletedId (id : Nat)
  | errIdNotFound (id : Nat)
  | errInvalidFind
  | dataAtFind (id : Nat) (bytes : List Nat)
  | nothingAt (id : Nat)
  | dataAtRead (id : Nat) (block : MemoryBlock)
  | invalidReadFormat
  | errInvalidUpdate
  | updatedId (id : Nat) (data : List Nat)
  | errUpdateTooLarge
  | memoryDumpHeader
  | dumpFree (start size : Nat)
  | dumpAlloc (id start size : Nat)
  | errUnknownCommand (verb : List Char)
deriving DecidableEq

/-- Which messages report an error condition to the user. -/
def Msg.isError : Msg → Bool
  | .errInvalidInsert => true
  | .memAllocationFailed => true
  | .errInvalidDelete => true
  | .errIdNotFound _ => true
  | .errInvalidFind => true
  | .nothingAt _ => true
  | .invalidReadFormat => true
  | .errInvalidUpdate => true
  | .errUpdateTooLarge => true
  | .errUnknownCommand _ => true
  | _ => false

/-- The token's bytes (`str::as_bytes`, ASCII). -/
def tokenBytes (t : List Char) : List Nat := t.map Char.toNat

/-- One iteration of the loop in `process_file`: parse one line, dispatch at
most one allocator call, collect the printed messages.  A propagated
`Except.error` is a panic inside the allocator. -/
def dispatchLine (m : MemoryManager) (line : List Char) :
    Except Unit (List Msg × List ACall × MemoryManager) :=
  let pl := Msg.processingLine line
  let tokens := splitWhitespace line
  match tokens with
  | [] => .ok ([pl], [], m)
  | verb :: _ =>
    if verb = "INSERT".data then
      if tokens.length < 3 then .ok ([pl, .errInvalidInsert], [], m)
      else
        match parseUsize (tokens.getD 1 []) with
        | some size =>
          let data := tokenBytes (tokens.getD 2 [])
          match m.insert size data with
          | .error e => .error e
          | .ok (some id, m') => .ok ([pl, .allocatedId id], [.insert size data], m')
          | .ok (none, m') => .ok ([pl, .memAllocationFailed], [.insert size data], m')
        | none => .ok ([pl], [], m)
    else if verb = "DELETE".data then
      if tokens.length < 2 then .ok ([pl, .errInvalidDelete], [], m)
      else
        match parseUsize (tokens.getD 1 []) with
        | some id =>
          match m.delete id with
          | (true, m') => .ok ([pl, .deletedId id], [.delete id], m')
          | (false, m') => .ok ([pl, .errIdNotFound id], [.delete id], m')
        | none => .ok ([pl], [], m)
    else if verb = "FIND".data then
      if tokens.length < 2 then .ok ([pl, .errInvalidFind], [], m)
      else
        match parseUsize (tokens.getD 1 []) with
        | some id =>
          match m.find id with
          | .error e => .error e
          | .ok (some bytes) => .ok ([pl, .dataAtFind id bytes], [.find id], m)
          | .ok none => .ok ([pl, .nothingAt id], [.find id], m)
        | none => .ok ([pl], [], m)
    else if verb = "READ".data ∧ tokens.length = 2 then
      match parseUsize (tokens.getD 1 []) with
      | some id =>
        match m.read id with
        | .dataAt _ block => .ok ([pl, .dataAtRead id block], [.read id], m)
        | .notFound _ => .ok ([pl, .errIdNotFound id], [.read id], m)
      | none => .ok ([pl, .invalidReadFormat], [], m)
    else if verb = "UPDATE".data then
      if tokens.length < 3 then .ok ([pl, .errInvalidUpdate], [], m)
      else
        match parseUsize (tokens.getD 1 []) with
        | some id =>
          let data := tokenBytes (tokens.getD 2 [])
          match m.update id data with
          | .error e => .error e
          | .ok (.updated, m') => .ok ([pl, .updatedId id data], [.update id data], m')
          | .ok (.tooLarge, m') => .ok ([pl, .errUpdateTooLarge], [.update id data], m')
          | .ok (.notFound, m') => .ok ([pl, .errIdNotFound id], [.update id data], m')
        | none => .ok ([pl], [], m)
    else if verb = "DUMP".data then
      .ok ([pl, .memoryDumpHeader] ++
        (m.free_blocks.flatMap (fun p => p.2.map (fun b => Msg.dumpFree b.start p.1))) ++
        (m.allocated_blocks.map (fun p => Msg.dumpAlloc p.1 p.2.start p.2.size)),
        [.dump], m)
    else
      .ok ([pl, .errUnknownCommand verb], [], m)

/-- The loop of `process_file` over the lines of the command file. -/
def processFile (m : MemoryManager) :
    List (List Char) → Except Unit (List Msg × List ACall × MemoryManager)
  | [] => .ok ([], [], m)
  | line :: rest =>
    match dispatchLine m line with
    | .error e => .error e
    | .ok (msgs, calls, m') =>
      match processFile m' rest with
      | .error e => .error e
      | .ok (msgs', calls', m'') => .ok (msgs ++ msgs', calls ++ calls', m'')

/-- Prefix some messages onto the report of a (sub-)run. -/
def prependMsgs (p : List Msg) (r : Except Unit (List Msg × List ACall × MemoryManager)) :
    Except Unit (List Msg × List ACall × MemoryManager) :=
  match r with
  | .error e => .error e
  | .ok (msgs, calls, mf) => .ok (p ++ msgs, calls, mf)


/-! ### Concrete states used in the claims -/

/-- A state whose free-block size groups are exactly {10, 50, 100}
(the best-fit scenario of the specification). -/
def bestFitScenario : MemoryManager :=
  { memory := fun _ => 0
    free_blocks := [(10, [⟨0, 10, false, none⟩]), (50, [⟨10, 50, false, none⟩]),
      (100, [⟨60, 100, false, none⟩])]
    allocated_blocks := []
    next_id := 0 }

/-- A fully allocated arena: three blocks [0,10), [10,30), [30,65535) cover
the whole arena, so freeing the first two leaves exactly the fragmentation
scenario of the no-coalescing property. -/
def fragScenario : MemoryManager :=
  { memory := fun _ => 0
    free_blocks := []
    allocated_blocks := [(0, ⟨0, 10, true, some 0⟩), (1, ⟨10, 20, true, some 1⟩),
      (2, ⟨30, 65505, true, some 2⟩)]
    next_id := 3 }

/-- A state holding one allocated block of size 2 at offset 0 (id 0). -/
def updateScenario : MemoryManager :=
  { memory := fun _ => 0
    free_blocks := [(65533, [⟨2, 65533, false, none⟩])]
    allocated_blocks := [(0, ⟨0, 2, true, some 0⟩)]
    next_id := 1 }

/-- A state holding one allocated byte 65 at offset 0 (id 0). -/
def readScenario : MemoryManager :=
  { memory := fun i => if i = 0 then 65 else 0
    free_blocks := [(65534, [⟨1, 65534, false, none⟩])]
    allocated_blocks := [(0, ⟨0, 1, true, some 0⟩)]
    next_id := 1 }


/-! ### Basic lemmas about the container operations -/

lemma getLast?_decomp {α : Type} : ∀ {l : List α} {b : α},
    l.getLast? = some b → l = l.dropLast ++ [b] := by
  intro l
  induction l with
  | nil => intro b h; simp at h
  | cons a t ih =>
    intro b h
    cases t with
    | nil => simp_all
    | cons c t' =>
      rw [List.getLast?_cons_cons] at h
      exact congrArg (List.cons a) (ih h)

lemma minByKey_mem {α : Type} : ∀ {l : List (Nat × α)} {p : Nat × α},
    minByKey l = some p → p ∈ l := by
  intro l
  induction l with
  | nil => intro p h; simp [minByKey] at h
  | cons q rest ih =>
    intro p h
    unfold minByKey at h
    split at h
    · injection h with h; exact h ▸ List.mem_cons_self _ _
    · next m heq =>
      split at h
      · injection h with h; exact h ▸ List.mem_cons_self _ _
      · injection h with h; exact List.mem_cons_of_mem _ (h ▸ ih heq)

lemma minByKey_none {α : Type} : ∀ {l : List (Nat × α)}, minByKey l = none → l = [] := by
  intro l
  cases l with
  | nil => intro _; rfl
  | cons q rest =>
    intro h
    unfold minByKey at h
    split at h
    · exact absurd h (by simp)
    · split at h <;> simp at h

lemma minByKey_le {α : Type} : ∀ {l : List (Nat × α)} {p : Nat × α},
    minByKey l = some p → ∀ q ∈ l, p.1 ≤ q.1 := by
  intro l
  induction l with
  | nil => intro p h; simp [minByKey] at h
  | cons a rest ih =>
    intro p h q hq
    unfold minByKey at h
    split at h
    · next heq =>
      injection h with h
      rw [minByKey_none heq] at hq
      rcases List.mem_cons.1 hq with h1 | h1
      · subst h1; exact h ▸ Nat.le_refl _
      · simp at h1
    · next m heq =>
      rcases List.mem_cons.1 hq with h1 | h1
      · subst h1
        split at h
        · injection h with h; exact h ▸ Nat.le_refl _
        · next hle =>
          injection h with h; subst h; omega
      · split at h
        · next hle =>
          injection h with h; subst h
          exact Nat.le_trans hle (ih heq q h1)
        · injection h with h; exact h ▸ ih heq q h1

lemma bestFit_mem {fb : FreeMap} {size : Nat} {p : Nat × List MemoryBlock}
    (h : bestFit fb size = some p) : p ∈ fb ∧ size ≤ p.1 := by
  have hmem := minByKey_mem h
  rw [List.mem_filter] at hmem
  exact ⟨hmem.1, by simpa using hmem.2⟩

lemma bestFit_min {fb : FreeMap} {size : Nat} {p : Nat × List MemoryBlock}
    (h : bestFit fb size = some p) : ∀ q ∈ fb, size ≤ q.1 → p.1 ≤ q.1 := by
  intro q hq hsz
  exact minByKey_le h q (List.mem_filter.2 ⟨hq, by simpa⟩)

lemma bestFit_none {fb : FreeMap} {size : Nat} (h : bestFit fb size = none) :
    ∀ q ∈ fb, q.1 < size := by
  intro q hq
  by_contra hc
  push_neg at hc
  have hmem : q ∈ fb.filter (fun p => size ≤ p.1) := List.mem_filter.2 ⟨hq, by simpa⟩
  rw [minByKey_none h] at hmem
  simp at hmem

lemma mem_mapRemoveKey {α : Type} {k0 : Nat} : ∀ {fb : List (Nat × α)} {p : Nat × α},
    p ∈ mapRemoveKey fb k0 → p ∈ fb := by
  intro fb
  induction fb with
  | nil => intro p h; simp [mapRemoveKey] at h
  | cons q rest ih =>
    obtain ⟨k, v⟩ := q
    intro p h
    unfold mapRemoveKey at h
    split at h
    · exact List.mem_cons_of_mem _ h
    · rcases List.mem_cons.1 h with h1 | h2
      · exact h1 ▸ List.mem_cons_self _ _
      · exact List.mem_cons_of_mem _ (ih h2)

lemma mem_mapSetExisting {α : Type} {k0 : Nat} {v0 : α} :
    ∀ {fb : List (Nat × α)} {p : Nat × α},
    p ∈ mapSetExisting fb k0 v0 → p ∈ fb ∨ p = (k0, v0) := by
  intro fb
  induction fb with
  | nil => intro p h; simp [mapSetExisting] at h
  | cons q rest ih =>
    obtain ⟨k, v⟩ := q
    intro p h
    unfold mapSetExisting at h
    split at h
    · next hk =>
      rcases List.mem_cons.1 h with h1 | h2
      · right; rw [h1, hk]
      · left; exact List.mem_cons_of_mem _ h2
    · rcases List.mem_cons.1 h with h1 | h2
      · left; exact h1 ▸ List.mem_cons_self _ _
      · rcases ih h2 with h3 | h3
        · left; exact List.mem_cons_of_mem _ h3
        · right; exact h3

lemma mem_mapInsert {α : Type} {k0 : Nat} {v0 : α} :
    ∀ {ab : List (Nat × α)} {p : Nat × α},
    p ∈ mapInsert ab k0 v0 → p ∈ ab ∨ p = (k0, v0) := by
  intro ab
  induction ab with
  | nil => intro p h; simp [mapInsert] at h; right; exact h
  | cons q rest ih =>
    obtain ⟨k, v⟩ := q
    intro p h
    unfold mapInsert at h
    split at h
    · rcases List.mem_cons.1 h with h1 | h2
      · right; exact h1
      · left; exact h2
    · split at h
      · rcases List.mem_cons.1 h with h1 | h2
        · right; exact h1
        · left; exact List.mem_cons_of_mem _ h2
      · rcases List.mem_cons.1 h with h1 | h2
        · left; exact h1 ▸ List.mem_cons_self _ _
        · rcases ih h2 with h3 | h3
          · left; exact List.mem_cons_of_mem _ h3
          · right; exact h3

lemma mem_entryPush {k0 : Nat} {b : MemoryBlock} :
    ∀ {fb : FreeMap} {p : Nat × List MemoryBlock},
    p ∈ entryPush fb k0 b →
      p ∈ fb ∨ p = (k0, [b]) ∨ ∃ l, (k0, l) ∈ fb ∧ p = (k0, l ++ [b]) := by
  intro fb
  induction fb with
  | nil =>
    intro p h
    unfold entryPush at h
    rcases List.mem_cons.1 h with h1 | h2
    · right; left; exact h1
    · simp at h2
  | cons q rest ih =>
    obtain ⟨k, l⟩ := q
    intro p h
    unfold entryPush at h
    split at h
    · rcases List.mem_cons.1 h with h1 | h2
      · right; left; exact h1
      · left; exact h2
    · split at h
      · next hlt hk =>
        rcases List.mem_cons.1 h with h1 | h2
        · right; right; exact ⟨l, by rw [hk]; exact List.mem_cons_self _ _, by rw [h1, hk]⟩
        · left; exact List.mem_cons_of_mem _ h2
      · rcases List.mem_cons.1 h with h1 | h2
        · left; exact h1 ▸ List.mem_cons_self _ _
        · rcases ih h2 with h3 | h3 | ⟨l', h4, h5⟩
          · left; exact List.mem_cons_of_mem _ h3
          · right; left; exact h3
          · right; right; exact ⟨l', List.mem_cons_of_mem _ h4, h5⟩

/-! ### Keys of the free index -/

lemma keys_mapRemoveKey {α : Type} (k0 : Nat) :
    ∀ (fb : List (Nat × α)), ((mapRemoveKey fb k0).map Prod.fst).Sublist (fb.map Prod.fst) := by
  intro fb
  induction fb with
  | nil => simp [mapRemoveKey]
  | cons q rest ih =>
    obtain ⟨k, v⟩ := q
    unfold mapRemoveKey
    split
    · exact (List.sublist_cons_self _ _)
    · exact ih.cons₂ _

lemma keys_mapSetExisting {α : Type} (k0 : Nat) (v0 : α) :
    ∀ (fb : List (Nat × α)), (mapSetExisting fb k0 v0).map Prod.fst = fb.map Prod.fst := by
  intro fb
  induction fb with
  | nil => rfl
  | cons q rest ih =>
    obtain ⟨k, v⟩ := q
    unfold mapSetExisting
    split
    · rfl
    · simpa using ih

lemma mem_keys_entryPush {k0 : Nat} {b : MemoryBlock} :
    ∀ {fb : FreeMap} {x : Nat},
    x ∈ (entryPush fb k0 b).map Prod.fst → x ∈ fb.map Prod.fst ∨ x = k0 := by
  intro fb
  induction fb with
  | nil =>
    intro x h
    unfold entryPush at h
    simp at h
    right; exact h
  | cons q rest ih =>
    obtain ⟨k, l⟩ := q
    intro x h
    unfold entryPush at h
    split at h
    · rcases List.mem_cons.1 h with h1 | h2
      · right; exact h1
      · left; exact h2
    · split at h
      · rcases List.mem_cons.1 h with h1 | h2
        · left; simp [h1]
        · left; exact List.mem_cons_of_mem _ h2
      · rcases List.mem_cons.1 h with h1 | h2
        · left; simp [h1]
        · rcases ih h2 with h3 | h3
          · left; exact List.mem_cons_of_mem _ h3
          · right; exact h3

lemma keys_entryPush_sorted {k0 : Nat} {b : MemoryBlock} :
    ∀ {fb : FreeMap}, ((fb.map Prod.fst).Pairwise (· < ·)) →
    (((entryPush fb k0 b).map Prod.fst).Pairwise (· < ·)) := by
  intro fb
  induction fb with
  | nil => intro _; simp [entryPush]
  | cons q rest ih =>
    obtain ⟨k, l⟩ := q
    intro hp
    rw [List.map_cons, List.pairwise_cons] at hp
    unfold entryPush
    split
    · next hlt =>
      rw [List.map_cons, List.pairwise_cons]
      refine ⟨?_, List.pairwise_cons.2 hp⟩
      intro x hx
      rcases List.mem_cons.1 hx with h1 | h2
      · omega
      · exact Nat.lt_trans hlt (hp.1 x h2)
    · split
      · exact List.pairwise_cons.2 hp
      · next hlt hne =>
        rw [List.map_cons, List.pairwise_cons]
        refine ⟨?_, ih hp.2⟩
        intro x hx
        rcases mem_keys_entryPush hx with h1 | h1
        · exact hp.1 x h1
        · omega

lemma mem_keys_mapInsert {α : Type} {k0 : Nat} {v0 : α} :
    ∀ {ab : List (Nat × α)} {x : Nat},
    x ∈ (mapInsert ab k0 v0).map Prod.fst → x ∈ ab.map Prod.fst ∨ x = k0 := by
  intro ab
  induction ab with
  | nil =>
    intro x h
    unfold mapInsert at h
    simp at h
    right; exact h
  | cons q rest ih =>
    obtain ⟨k, v⟩ := q
    intro x h
    unfold mapInsert at h
    split at h
    · rcases List.mem_cons.1 h with h1 | h2
      · right; exact h1
      · left; exact h2
    · split at h
      · rcases List.mem_cons.1 h with h1 | h2
        · right; exact h1
        · left; exact List.mem_cons_of_mem _ h2
      · rcases List.mem_cons.1 h with h1 | h2
        · left; simp [h1]
        · rcases ih h2 with h3 | h3
          · left; exact List.mem_cons_of_mem _ h3
          · right; exact h3

/-! ### Permutation facts about the live blocks -/

lemma freeList_cons (k : Nat) (l : List MemoryBlock) (rest : FreeMap) :
    freeListFB ((k, l) :: rest) = l ++ freeListFB rest := rfl

lemma freeList_mapRemoveKey {bs : Nat} {blocks : List MemoryBlock} :
    ∀ {fb : FreeMap}, (bs, blocks) ∈ fb → ((fb.map Prod.fst).Nodup) →
    freeListFB fb ~ blocks ++ freeListFB (mapRemoveKey fb bs) := by
  intro fb
  induction fb with
  | nil => intro h _; simp at h
  | cons q rest ih =>
    obtain ⟨k, l⟩ := q
    intro hmem hnd
    rw [List.map_cons, List.nodup_cons] at hnd
    unfold mapRemoveKey
    by_cases hk : k = bs
    · subst hk
      have hl : l = blocks := by
        rcases List.mem_cons.1 hmem with h1 | h2
        · injection h1 with h1a h1b; exact h1b.symm
        · exact absurd (List.mem_map_of_mem Prod.fst h2) hnd.1
      rw [if_pos rfl, hl, freeList_cons]
    · have hmem' : (bs, blocks) ∈ rest := by
        rcases List.mem_cons.1 hmem with h1 | h2
        · injection h1 with h1a _; exact absurd h1a.symm hk
        · exact h2
      rw [if_neg hk]
      calc freeListFB ((k, l) :: rest) = l ++ freeListFB rest := rfl
        _ ~ l ++ (blocks ++ freeListFB (mapRemoveKey rest bs)) :=
            (ih hmem' hnd.2).append_left l
        _ ~ blocks ++ (l ++ freeListFB (mapRemoveKey rest bs)) := by
            rw [← List.append_assoc, ← List.append_assoc]
            exact List.perm_append_comm.append_right _
        _ = blocks ++ freeListFB ((k, l) :: mapRemoveKey rest bs) := rfl

lemma freeList_mapSetExisting {bs : Nat} {blocks : List MemoryBlock} (l' : List MemoryBlock) :
    ∀ {fb : FreeMap}, (bs, blocks) ∈ fb → ((fb.map Prod.fst).Nodup) →
    freeListFB (mapSetExisting fb bs l') ~ l' ++ freeListFB (mapRemoveKey fb bs) := by
  intro fb
  induction fb with
  | nil => intro h _; simp at h
  | cons q rest ih =>
    obtain ⟨k, l⟩ := q
    intro hmem hnd
    rw [List.map_cons, List.nodup_cons] at hnd
    unfold mapSetExisting mapRemoveKey
    by_cases hk : k = bs
    · rw [if_pos hk, if_pos hk, freeList_cons]
    · have hmem' : (bs, blocks) ∈ rest := by
        rcases List.mem_cons.1 hmem with h1 | h2
        · injection h1 with h1a _; exact absurd h1a.symm hk
        · exact h2
      rw [if_neg hk, if_neg hk]
      calc freeListFB ((k, l) :: mapSetExisting rest bs l')
          = l ++ freeListFB (mapSetExisting rest bs l') := rfl
        _ ~ l ++ (l' ++ freeListFB (mapRemoveKey rest bs)) :=
            (ih hmem' hnd.2).append_left l
        _ ~ l' ++ (l ++ freeListFB (mapRemoveKey rest bs)) := by
            rw [← List.append_assoc, ← List.append_assoc]
            exact List.perm_append_comm.append_right _
        _ = l' ++ freeListFB ((k, l) :: mapRemoveKey rest bs) := rfl

lemma freeList_entryPush (k0 : Nat) (b : MemoryBlock) :
    ∀ (fb : FreeMap), freeListFB (entryPush fb k0 b) ~ b :: freeListFB fb := by
  intro fb
  induction fb with
  | nil => simp [entryPush, freeListFB]
  | cons q rest ih =>
    obtain ⟨k, l⟩ := q
    unfold entryPush
    split
    · exact List.Perm.refl _
    · split
      · next hk =>
        subst hk
        calc freeListFB ((k0, l ++ [b]) :: rest) = (l ++ [b]) ++ freeListFB rest := rfl
          _ = l ++ (b :: freeListFB rest) := by rw [List.append_assoc]; rfl
          _ ~ b :: (l ++ freeListFB rest) := List.perm_middle
          _ = b :: freeListFB ((k0, l) :: rest) := rfl
      · calc freeListFB ((k, l) :: entryPush rest k0 b)
            = l ++ freeListFB (entryPush rest k0 b) := rfl
          _ ~ l ++ (b :: freeListFB rest) := ih.append_left l
          _ ~ b :: (l ++ freeListFB rest) := List.perm_middle
          _ = b :: freeListFB ((k, l) :: rest) := rfl

lemma allocList_mapInsert_fresh {k0 : Nat} {b : MemoryBlock} :
    ∀ {ab : AllocMap}, k0 ∉ ab.map Prod.fst →
    allocListAB (mapInsert ab k0 b) ~ b :: allocListAB ab := by
  intro ab
  induction ab with
  | nil => intro _; simp [mapInsert, allocListAB]
  | cons q rest ih =>
    obtain ⟨k, v⟩ := q
    intro hfresh
    rw [List.map_cons, List.mem_cons] at hfresh
    push_neg at hfresh
    unfold mapInsert
    split
    · exact List.Perm.refl _
    · split
      · next hne => exact absurd hne hfresh.1
      · calc allocListAB ((k, v) :: mapInsert rest k0 b)
            = v :: allocListAB (mapInsert rest k0 b) := rfl
          _ ~ v :: (b :: allocListAB rest) := (ih hfresh.2).cons v
          _ ~ b :: (v :: allocListAB rest) := List.Perm.swap _ _ _
          _ = b :: allocListAB ((k, v) :: rest) := rfl

lemma mapRemove_some {id : Nat} :
    ∀ {ab : AllocMap} {b : MemoryBlock} {ab' : AllocMap},
    mapRemove ab id = (some b, ab') →
      allocListAB ab ~ b :: allocListAB ab' ∧ (∀ p ∈ ab', p ∈ ab) ∧ (id, b) ∈ ab := by
  intro ab
  induction ab with
  | nil => intro b ab' h; simp [mapRemove] at h
  | cons q rest ih =>
    obtain ⟨k, v⟩ := q
    intro b ab' h
    unfold mapRemove at h
    split at h
    · next hk =>
      injection h with h1 h2
      injection h1 with h1
      subst h1; subst h2; subst hk
      exact ⟨List.Perm.refl _, fun p hp => List.mem_cons_of_mem _ hp, List.mem_cons_self _ _⟩
    · simp only at h
      injection h with h1 h2
      obtain ⟨hperm, hsub, hmem⟩ := ih (Prod.ext h1 rfl)
      constructor
      · calc allocListAB ((k, v) :: rest) = v :: allocListAB rest := rfl
          _ ~ v :: (b :: allocListAB (mapRemove rest id).2) := hperm.cons v
          _ ~ b :: (v :: allocListAB (mapRemove rest id).2) := List.Perm.swap _ _ _
          _ = b :: allocListAB ((k, v) :: (mapRemove rest id).2) := rfl
          _ = b :: allocListAB ab' := by rw [h2]
      constructor
      · intro p hp
        rw [← h2] at hp
        rcases List.mem_cons.1 hp with hp1 | hp2
        · exact hp1 ▸ List.mem_cons_self _ _
        · exact List.mem_cons_of_mem _ (hsub p hp2)
      · exact List.mem_cons_of_mem _ hmem

/-! ### Extents -/

lemma disjointExtents_symm {a b : MemoryBlock} (h : disjointExtents a b) :
    disjointExtents b a := by
  unfold disjointExtents at *
  omega

lemma within_disjoint {a b c : MemoryBlock} (hw : within a b) (h : disjointExtents b c) :
    disjointExtents a c := by
  unfold within at hw
  unfold disjointExtents at *
  omega

lemma disjoint_not_intersect {a b : MemoryBlock} (h : disjointExtents a b) :
    ¬ extentsIntersect a b := by
  rintro ⟨x, ⟨h1, h2⟩, h3, h4⟩
  unfold disjointExtents at h
  omega

lemma pairwise_replace {L news : List MemoryBlock} {block : MemoryBlock}
    (h : (block :: L).Pairwise disjointExtents)
    (hw : ∀ b ∈ news, within b block)
    (hn : news.Pairwise disjointExtents) :
    (news ++ L).Pairwise disjointExtents := by
  rw [List.pairwise_cons] at h
  rw [List.pairwise_append]
  exact ⟨hn, h.2, fun a ha c hc => within_disjoint (hw a ha) (h.1 c hc)⟩

lemma sumSizes_perm {l l' : List MemoryBlock} (h : List.Perm l l') :
    sumSizes l = sumSizes l' :=
  (h.map MemoryBlock.size).sum_eq

lemma sumSizes_cons (b : MemoryBlock) (l : List MemoryBlock) :
    sumSizes (b :: l) = b.size + sumSizes l := by
  simp [sumSizes]

/-! ### Well-formedness invariant of the manager state -/

structure WF (m : MemoryManager) : Prop where
  keySize : ∀ p ∈ m.free_blocks, ∀ b ∈ p.2, MemoryBlock.size b = p.1
  keysSorted : (m.free_blocks.map Prod.fst).Pairwise (· < ·)
  bounded : ∀ b ∈ m.liveBlocks, b.start + b.size ≤ MEMORY_SIZE
  disj : m.liveBlocks.Pairwise disjointExtents
  idsLt : ∀ p ∈ m.allocated_blocks, p.1 < m.next_id
  conserv : sumSizes m.liveBlocks = MEMORY_SIZE

lemma WF.keysNodup {m : MemoryManager} (hwf : WF m) :
    (m.free_blocks.map Prod.fst).Nodup :=
  hwf.keysSorted.imp (fun h => Nat.ne_of_lt h)

lemma WF_memory {m : MemoryManager} (hwf : WF m) (mem' : Nat → Nat) :
    WF { m with memory := mem' } :=
  ⟨hwf.keySize, hwf.keysSorted, hwf.bounded, hwf.disj, hwf.idsLt, hwf.conserv⟩

/-- Preservation of the invariant by the state constructed in the success
branch of `insert`: `fb1` is the free index after the selected block was
popped (`block` is the popped block). -/
lemma WF_insert_core {m : MemoryManager} (hwf : WF m)
    {fb1 : FreeMap} {block : MemoryBlock}
    (hF : List.Perm (freeListFB m.free_blocks) (block :: freeListFB fb1))
    (hks1 : ∀ p ∈ fb1, ∀ b ∈ p.2, MemoryBlock.size b = p.1)
    (hsorted1 : (fb1.map Prod.fst).Pairwise (· < ·))
    {size : Nat} (hszle : size ≤ block.size) (mem' : Nat → Nat) :
    WF { memory := mem'
         free_blocks :=
           if size < block.size then
             entryPush fb1 (block.size - size)
               ⟨block.start + size, block.size - size, false, none⟩
           else fb1
         allocated_blocks := mapInsert m.allocated_blocks m.next_id
           ⟨block.start, size, true, some m.next_id⟩
         next_id := m.next_id + 1 } := by
  have hfresh : m.next_id ∉ m.allocated_blocks.map Prod.fst := by
    intro hmem
    obtain ⟨p, hp, hp2⟩ := List.mem_map.1 hmem
    exact absurd (hp2 ▸ hwf.idsLt p hp) (lt_irrefl _)
  have hA := allocList_mapInsert_fresh (b := ⟨block.start, size, true, some m.next_id⟩) hfresh
  have hliveOld : List.Perm m.liveBlocks
      (block :: (freeListFB fb1 ++ allocListAB m.allocated_blocks)) := by
    calc m.liveBlocks
        = freeListFB m.free_blocks ++ allocListAB m.allocated_blocks := rfl
      _ ~ (block :: freeListFB fb1) ++ allocListAB m.allocated_blocks :=
          hF.append_right _
      _ = block :: (freeListFB fb1 ++ allocListAB m.allocated_blocks) := rfl
  have hblockLive : block ∈ m.liveBlocks :=
    hliveOld.symm.subset (List.mem_cons_self _ _)
  have hbound_block : block.start + block.size ≤ MEMORY_SIZE := hwf.bounded block hblockLive
  have hdisjOld : (block :: (freeListFB fb1 ++ allocListAB m.allocated_blocks)).Pairwise
      disjointExtents :=
    ((hliveOld.pairwise_iff (fun hx => disjointExtents_symm hx)).1 hwf.disj)
  have hsumOld : sumSizes (block :: (freeListFB fb1 ++ allocListAB m.allocated_blocks))
      = MEMORY_SIZE := (sumSizes_perm hliveOld).symm.trans hwf.conserv
  have hLlive : ∀ b ∈ freeListFB fb1 ++ allocListAB m.allocated_blocks, b ∈ m.liveBlocks :=
    fun b hb => hliveOld.symm.subset (List.mem_cons_of_mem _ hb)
  by_cases hsplit : size < block.size
  · rw [if_pos hsplit]
    have hlive' : List.Perm
        (freeListFB (entryPush fb1 (block.size - size)
            ⟨block.start + size, block.size - size, false, none⟩) ++
          allocListAB (mapInsert m.allocated_blocks m.next_id
            ⟨block.start, size, true, some m.next_id⟩))
        ([⟨block.start + size, block.size - size, false, none⟩,
          ⟨block.start, size, true, some m.next_id⟩] ++
          (freeListFB fb1 ++ allocListAB m.allocated_blocks)) := by
      calc _ ~ (⟨block.start + size, block.size - size, false, none⟩ :: freeListFB fb1) ++
              (⟨block.start, size, true, some m.next_id⟩ ::
                allocListAB m.allocated_blocks) :=
            (freeList_entryPush _ _ _).append hA
        _ = ⟨block.start + size, block.size - size, false, none⟩ ::
              (freeListFB fb1 ++ ⟨block.start, size, true, some m.next_id⟩ ::
                allocListAB m.allocated_blocks) := rfl
        _ ~ _ := List.Perm.cons _ List.perm_middle
    constructor
    · intro p hp b hb
      rcases mem_entryPush hp with h1 | h1 | ⟨l, h2, h3⟩
      · exact hks1 p h1 b hb
      · subst h1
        simp at hb
        simp [hb]
      · subst h3
        simp only at hb
        rcases List.mem_append.1 hb with h4 | h4
        · exact hks1 _ h2 b h4
        · simp at h4
          simp [h4]
    · exact keys_entryPush_sorted hsorted1
    · intro b hb
      have hb' := hlive'.subset hb
      rcases List.mem_cons.1 hb' with h1 | h1
      · subst h1; simp only; omega
      · rcases List.mem_cons.1 h1 with h2 | h2
        · subst h2; simp only; omega
        · exact hwf.bounded b (hLlive b h2)
    · refine (hlive'.pairwise_iff (fun hx => disjointExtents_symm hx)).2 ?_
      refine pairwise_replace hdisjOld ?_ ?_
      · intro b hb
        rcases List.mem_cons.1 hb with h1 | h1
        · subst h1; constructor <;> simp <;> omega
        · rcases List.mem_cons.1 h1 with h2 | h2
          · subst h2; constructor <;> simp <;> omega
          · simp at h2
      · refine List.pairwise_cons.2 ⟨?_, List.pairwise_singleton _ _⟩
        intro b hb
        rcases List.mem_cons.1 hb with h1 | h1
        · subst h1
          right
          simp only
          omega
        · simp at h1
    · intro p hp
      rcases mem_mapInsert hp with h1 | h1
      · exact Nat.lt_trans (hwf.idsLt p h1) (Nat.lt_succ_self _)
      · subst h1; exact Nat.lt_succ_self _
    · have h1 := sumSizes_perm hlive'
      rw [show (MemoryManager.liveBlocks
          { memory := mem'
            free_blocks := entryPush fb1 (block.size - size)
              ⟨block.start + size, block.size - size, false, none⟩
            allocated_blocks := mapInsert m.allocated_blocks m.next_id
              ⟨block.start, size, true, some m.next_id⟩
            next_id := m.next_id + 1 }) =
          freeListFB (entryPush fb1 (block.size - size)
              ⟨block.start + size, block.size - size, false, none⟩) ++
            allocListAB (mapInsert m.allocated_blocks m.next_id
              ⟨block.start, size, true, some m.next_id⟩) from rfl, h1]
      rw [List.cons_append, sumSizes_cons, List.singleton_append, sumSizes_cons]
      rw [sumSizes_cons] at hsumOld
      simp only
      omega
  · rw [if_neg hsplit]
    have hsz : block.size = size := by omega
    have hlive' : List.Perm
        (freeListFB fb1 ++ allocListAB (mapInsert m.allocated_blocks m.next_id
            ⟨block.start, size, true, some m.next_id⟩))
        ([⟨block.start, size, true, some m.next_id⟩] ++
          (freeListFB fb1 ++ allocListAB m.allocated_blocks)) := by
      calc _ ~ freeListFB fb1 ++ (⟨block.start, size, true, some m.next_id⟩ ::
              allocListAB m.allocated_blocks) := hA.append_left _
        _ ~ _ := List.perm_middle
    constructor
    · exact hks1
    · exact hsorted1
    · intro b hb
      have hb' := hlive'.subset hb
      rcases List.mem_cons.1 hb' with h1 | h1
      · subst h1; simp only; omega
      · exact hwf.bounded b (hLlive b h1)
    · refine (hlive'.pairwise_iff (fun hx => disjointExtents_symm hx)).2 ?_
      refine pairwise_replace hdisjOld ?_ (List.pairwise_singleton _ _)
      intro b hb
      rcases List.mem_cons.1 hb with h1 | h1
      · subst h1; constructor <;> simp <;> omega
      · simp at h1
    · intro p hp
      rcases mem_mapInsert hp with h1 | h1
      · exact Nat.lt_trans (hwf.idsLt p h1) (Nat.lt_succ_self _)
      · subst h1; exact Nat.lt_succ_self _
    · have h1 := sumSizes_perm hlive'
      rw [show (MemoryManager.liveBlocks
          { memory := mem'
            free_blocks := fb1
            allocated_blocks := mapInsert m.allocated_blocks m.next_id
              ⟨block.start, size, true, some m.next_id⟩
            next_id := m.next_id + 1 }) =
          freeListFB fb1 ++ allocListAB (mapInsert m.allocated_blocks m.next_id
            ⟨block.start, size, true, some m.next_id⟩) from rfl, h1]
      rw [List.singleton_append, sumSizes_cons]
      rw [sumSizes_cons] at hsumOld
      simp only
      omega

lemma WF_insert {m : MemoryManager} {size : Nat} {data : List Nat} {r : Option Nat}
    {m' : MemoryManager} (hwf : WF m) (h : m.insert size data = .ok (r, m')) : WF m' := by
  unfold MemoryManager.insert at h
  rcases hbf : bestFit m.free_blocks size with _ | ⟨bs, blocks⟩
  · rw [hbf] at h
    injection h with h
    injection h with h1 h2
    subst h2
    exact hwf
  · rw [hbf] at h
    simp only at h
    rcases hgl : blocks.getLast? with _ | block
    · rw [hgl] at h
      injection h with h
      injection h with h1 h2
      subst h2
      exact hwf
    · rw [hgl] at h
      simp only at h
      rcases hcp : copyFromSlice m.memory block.start size data with _ | mem'
      · rw [hcp] at h
        exact Except.noConfusion h
      · rw [hcp] at h
        injection h with h
        injection h with h1 h2
        subst h2
        obtain ⟨hbmem, hbsz⟩ := bestFit_mem hbf
        have hdec := getLast?_decomp hgl
        have hblockmem : block ∈ blocks := by
          rw [hdec]; exact List.mem_append_right _ (List.mem_cons_self _ _)
        have hblocksz : block.size = bs := hwf.keySize _ hbmem block hblockmem
        have hszle : size ≤ block.size := hblocksz ▸ hbsz
        have hnd := hwf.keysNodup
        by_cases hpop : blocks.dropLast = []
        · rw [if_pos hpop]
          have hone : blocks = [block] := by
            conv_lhs => rw [hdec]
            rw [hpop]
            rfl
          have hF : List.Perm (freeListFB m.free_blocks)
              (block :: freeListFB (mapRemoveKey m.free_blocks bs)) := by
            have h3 := freeList_mapRemoveKey hbmem hnd
            rw [hone] at h3
            exact h3
          refine WF_insert_core hwf hF ?_ ?_ hszle mem'
          · intro p hp b hb
            exact hwf.keySize p (mem_mapRemoveKey hp) b hb
          · exact hwf.keysSorted.sublist (keys_mapRemoveKey bs m.free_blocks)
        · rw [if_neg hpop]
          have hF : List.Perm (freeListFB m.free_blocks)
              (block :: freeListFB (mapSetExisting m.free_blocks bs blocks.dropLast)) := by
            have h3 := freeList_mapRemoveKey hbmem hnd
            have h4 := freeList_mapSetExisting blocks.dropLast hbmem hnd
            calc freeListFB m.free_blocks
                ~ blocks ++ freeListFB (mapRemoveKey m.free_blocks bs) := h3
              _ = (blocks.dropLast ++ [block]) ++
                    freeListFB (mapRemoveKey m.free_blocks bs) := by rw [← hdec]
              _ = blocks.dropLast ++
                    (block :: freeListFB (mapRemoveKey m.free_blocks bs)) := by
                  rw [List.append_assoc]; rfl
              _ ~ block :: (blocks.dropLast ++
                    freeListFB (mapRemoveKey m.free_blocks bs)) := List.perm_middle
              _ ~ block :: freeListFB (mapSetExisting m.free_blocks bs blocks.dropLast) :=
                  h4.symm.cons block
          refine WF_insert_core hwf hF ?_ ?_ hszle mem'
          · intro p hp b hb
            rcases mem_mapSetExisting hp with h5 | h5
            · exact hwf.keySize p h5 b hb
            · subst h5
              have hbmem2 : b ∈ blocks := by
                rw [hdec]
                exact List.mem_append_left _ hb
              exact hwf.keySize _ hbmem b hbmem2
          · rw [keys_mapSetExisting]
            exact hwf.keysSorted

lemma WF_delete {m : MemoryManager} (id : Nat) (hwf : WF m) : WF (m.delete id).2 := by
  unfold MemoryManager.delete
  rcases hrm : mapRemove m.allocated_blocks id with ⟨o, ab'⟩
  rcases o with _ | block
  · exact hwf
  · simp only
    obtain ⟨hpermA, hsub, hmem⟩ := mapRemove_some hrm
    have hblockLive : block ∈ m.liveBlocks :=
      List.mem_append_right _ (List.mem_map_of_mem Prod.snd hmem)
    have hliveOld : List.Perm m.liveBlocks
        (block :: (freeListFB m.free_blocks ++ allocListAB ab')) := by
      calc m.liveBlocks
          = freeListFB m.free_blocks ++ allocListAB m.allocated_blocks := rfl
        _ ~ freeListFB m.free_blocks ++ (block :: allocListAB ab') :=
            hpermA.append_left _
        _ ~ block :: (freeListFB m.free_blocks ++ allocListAB ab') := List.perm_middle
    have hlive' : List.Perm
        (freeListFB (entryPush m.free_blocks block.size
            ⟨block.start, block.size, false, none⟩) ++ allocListAB ab')
        ([⟨block.start, block.size, false, none⟩] ++
          (freeListFB m.free_blocks ++ allocListAB ab')) := by
      calc _ ~ (⟨block.start, block.size, false, none⟩ ::
              freeListFB m.free_blocks) ++ allocListAB ab' :=
            (freeList_entryPush _ _ _).append_right _
        _ = _ := rfl
    have hdisjOld : (block :: (freeListFB m.free_blocks ++ allocListAB ab')).Pairwise
        disjointExtents :=
      (hliveOld.pairwise_iff (fun hx => disjointExtents_symm hx)).1 hwf.disj
    constructor
    · intro p hp b hb
      rcases mem_entryPush hp with h1 | h1 | ⟨l, h2, h3⟩
      · exact hwf.keySize p h1 b hb
      · subst h1
        simp at hb
        simp [hb]
      · subst h3
        simp only at hb
        rcases List.mem_append.1 hb with h4 | h4
        · exact hwf.keySize _ h2 b h4
        · simp at h4
          simp [h4]
    · exact keys_entryPush_sorted hwf.keysSorted
    · intro b hb
      have hb' := hlive'.subset hb
      rcases List.mem_cons.1 hb' with h1 | h1
      · subst h1
        simpa using hwf.bounded block hblockLive
      · exact hwf.bounded b (hliveOld.symm.subset (List.mem_cons_of_mem _ h1))
    · refine (hlive'.pairwise_iff (fun hx => disjointExtents_symm hx)).2 ?_
      refine pairwise_replace hdisjOld ?_ (List.pairwise_singleton _ _)
      intro b hb
      rcases List.mem_cons.1 hb with h1 | h1
      · subst h1; constructor <;> simp
      · simp at h1
    · intro p hp
      exact hwf.idsLt p (hsub p hp)
    · have h1 := sumSizes_perm hlive'
      have h2 := sumSizes_perm hliveOld
      rw [show (MemoryManager.liveBlocks
          { m with
            allocated_blocks := ab'
            free_blocks := entryPush m.free_blocks block.size
              ⟨block.start, block.size, false, none⟩ }) =
          freeListFB (entryPush m.free_blocks block.size
              ⟨block.start, block.size, false, none⟩) ++ allocListAB ab' from rfl, h1]
      rw [List.singleton_append, sumSizes_cons]
      rw [sumSizes_cons] at h2
      have h3 := hwf.conserv
      simp only
      omega

lemma WF_update {m : MemoryManager} {id : Nat} {data : List Nat} {r : UpdateResult}
    {m' : MemoryManager} (hwf : WF m) (h : m.update id data = .ok (r, m')) : WF m' := by
  unfold MemoryManager.update at h
  split at h
  · split at h
    · split at h
      · exact Except.noConfusion h
      · injection h with h
        injection h with h1 h2
        subst h2
        exact WF_memory hwf _
    · injection h with h
      injection h with h1 h2
      subst h2
      exact hwf
  · injection h with h
    injection h with h1 h2
    subst h2
    exact hwf

lemma WF_applyOp {m : MemoryManager} {op : Op} {r : OpResult} {m' : MemoryManager}
    (hwf : WF m) (h : applyOp m op = .ok (r, m')) : WF m' := by
  cases op with
  | insert size data =>
    simp only [applyOp] at h
    split at h
    · exact Except.noConfusion h
    · next id m1 heq =>
      injection h with h
      injection h with h1 h2
      subst h2
      exact WF_insert hwf heq
    · next m1 heq =>
      injection h with h
      injection h with h1 h2
      subst h2
      exact WF_insert hwf heq
  | delete id =>
    simp only [applyOp] at h
    split at h
    · next m1 heq =>
      injection h with h
      injection h with h1 h2
      subst h2
      have := WF_delete id hwf
      rw [heq] at this
      exact this
    · next m1 heq =>
      injection h with h
      injection h with h1 h2
      subst h2
      have := WF_delete id hwf
      rw [heq] at this
      exact this
  | update id data =>
    simp only [applyOp] at h
    split at h
    · exact Except.noConfusion h
    · next m1 heq =>
      injection h with h
      injection h with h1 h2
      subst h2
      exact WF_update hwf heq
    · next m1 heq =>
      injection h with h
      injection h with h1 h2
      subst h2
      exact WF_update hwf heq
    · next m1 heq =>
      injection h with h
      injection h with h1 h2
      subst h2
      exact WF_update hwf heq
  | find id =>
    simp only [applyOp] at h
    split at h
    · exact Except.noConfusion h
    · injection h with h
      injection h with h1 h2
      subst h2
      exact hwf
  | read id =>
    simp only [applyOp] at h
    injection h with h
    injection h with h1 h2
    subst h2
    exact hwf
  | dump =>
    simp only [applyOp] at h
    injection h with h
    injection h with h1 h2
    subst h2
    exact hwf

lemma WF_run : ∀ {ops : List Op} {m : MemoryManager} {rs : List OpResult}
    {m' : MemoryManager}, WF m → run m ops = .ok (rs, m') → WF m' := by
  intro ops
  induction ops with
  | nil =>
    intro m rs m' hwf h
    unfold run at h
    injection h with h
    injection h with h1 h2
    subst h2
    exact hwf
  | cons op ops ih =>
    intro m rs m' hwf h
    unfold run at h
    split at h
    · exact Except.noConfusion h
    · next r m1 heq =>
      split at h
      · exact Except.noConfusion h
      · next rs2 m2 heq2 =>
        injection h with h
        injection h with h1 h2
        subst h2
        exact ih (WF_applyOp hwf heq) heq2

lemma WF_new : WF MemoryManager.new := by
  constructor
  · intro p hp b hb
    simp [MemoryManager.new] at hp
    subst hp
    simp at hb
    simp [hb]
  · simp [MemoryManager.new]
  · intro b hb
    simp [MemoryManager.new, MemoryManager.liveBlocks, freeListFB, allocListAB] at hb
    subst hb
    simp [MEMORY_SIZE]
  · simp [MemoryManager.new, MemoryManager.liveBlocks, freeListFB, allocListAB]
  · intro p hp
    simp [MemoryManager.new] at hp
  · simp [MemoryManager.new, MemoryManager.liveBlocks, freeListFB, allocListAB,
      sumSizes]

/-! ### Ids returned by successful allocations -/

lemma insert_ok_some {m : MemoryManager} {size : Nat} {data : List Nat} {id : Nat}
    {m₁ : MemoryManager} (h : m.insert size data = .ok (some id, m₁)) :
    id = m.next_id ∧ m₁.next_id = m.next_id + 1 := by
  unfold MemoryManager.insert at h
  split at h
  · injection h with h
    injection h with h1 h2
    exact Option.noConfusion h1
  · split at h
    · injection h with h
      injection h with h1 h2
      exact Option.noConfusion h1
    · split at h
      · exact Except.noConfusion h
      · injection h with h
        injection h with h1 h2
        injection h1 with h1
        subst h2
        exact ⟨h1.symm, rfl⟩

lemma insert_ok_none {m : MemoryManager} {size : Nat} {data : List Nat}
    {m₁ : MemoryManager} (h : m.insert size data = .ok (none, m₁)) : m₁ = m := by
  unfold MemoryManager.insert at h
  split at h
  · injection h with h
    injection h with h1 h2
    exact h2.symm
  · split at h
    · injection h with h
      injection h with h1 h2
      exact h2.symm
    · split at h
      · exact Except.noConfusion h
      · injection h with h
        injection h with h1 h2
        exact Option.noConfusion h1

lemma delete_nextId (m : MemoryManager) (id : Nat) :
    (m.delete id).2.next_id = m.next_id := by
  unfold MemoryManager.delete
  rcases mapRemove m.allocated_blocks id with ⟨o, ab'⟩
  rcases o with _ | block
  · rfl
  · rfl

lemma update_nextId {m : MemoryManager} {id : Nat} {data : List Nat} {r : UpdateResult}
    {m₁ : MemoryManager} (h : m.update id data = .ok (r, m₁)) :
    m₁.next_id = m.next_id := by
  unfold MemoryManager.update at h
  split at h
  · split at h
    · split at h
      · exact Except.noConfusion h
      · injection h with h
        injection h with h1 h2
        subst h2
        rfl
    · injection h with h
      injection h with h1 h2
      subst h2
      rfl
  · injection h with h
    injection h with h1 h2
    subst h2
    rfl

lemma applyOp_nextId {m : MemoryManager} {op : Op} {r : OpResult} {m₁ : MemoryManager}
    (h : applyOp m op = .ok (r, m₁)) :
    m.next_id ≤ m₁.next_id ∧
    ∀ id, r = OpResult.allocOk id → id = m.next_id ∧ m₁.next_id = m.next_id + 1 := by
  cases op with
  | insert size data =>
    simp only [applyOp] at h
    split at h
    · exact Except.noConfusion h
    · next id m2 heq =>
      injection h with h
      injection h with h1 h2
      subst h2
      obtain ⟨hid, hnext⟩ := insert_ok_some heq
      refine ⟨by omega, ?_⟩
      intro id0 hr
      rw [← h1] at hr
      injection hr with hr
      subst hr
      exact ⟨hid, hnext⟩
    · next m2 heq =>
      injection h with h
      injection h with h1 h2
      subst h2
      rw [insert_ok_none heq]
      refine ⟨Nat.le_refl _, ?_⟩
      intro id0 hr
      rw [← h1] at hr
      exact OpResult.noConfusion hr
  | delete id =>
    simp only [applyOp] at h
    have hd := delete_nextId m id
    split at h
    · next m2 heq =>
      injection h with h
      injection h with h1 h2
      subst h2
      rw [heq] at hd
      have hd2 : m2.next_id = m.next_id := hd
      refine ⟨by omega, ?_⟩
      intro id0 hr
      rw [← h1] at hr
      exact OpResult.noConfusion hr
    · next m2 heq =>
      injection h with h
      injection h with h1 h2
      subst h2
      rw [heq] at hd
      have hd2 : m2.next_id = m.next_id := hd
      refine ⟨by omega, ?_⟩
      intro id0 hr
      rw [← h1] at hr
      exact OpResult.noConfusion hr
  | update id data =>
    simp only [applyOp] at h
    split at h
    · exact Except.noConfusion h
    · next m2 heq =>
      injection h with h
      injection h with h1 h2
      subst h2
      have := update_nextId heq
      refine ⟨by omega, ?_⟩
      intro id0 hr
      rw [← h1] at hr
      exact OpResult.noConfusion hr
    · next m2 heq =>
      injection h with h
      injection h with h1 h2
      subst h2
      have := update_nextId heq
      refine ⟨by omega, ?_⟩
      intro id0 hr
      rw [← h1] at hr
      exact OpResult.noConfusion hr
    · next m2 heq =>
      injection h with h
      injection h with h1 h2
      subst h2
      have := update_nextId heq
      refine ⟨by omega, ?_⟩
      intro id0 hr
      rw [← h1] at hr
      exact OpResult.noConfusion hr
  | find id =>
    simp only [applyOp] at h
    split at h
    · exact Except.noConfusion h
    · injection h with h
      injection h with h1 h2
      subst h2
      refine ⟨Nat.le_refl _, ?_⟩
      intro id0 hr
      rw [← h1] at hr
      exact OpResult.noConfusion hr
  | read id =>
    simp only [applyOp] at h
    injection h with h
    injection h with h1 h2
    subst h2
    refine ⟨Nat.le_refl _, ?_⟩
    intro id0 hr
    rw [← h1] at hr
    exact OpResult.noConfusion hr
  | dump =>
    simp only [applyOp] at h
    injection h with h
    injection h with h1 h2
    subst h2
    refine ⟨Nat.le_refl _, ?_⟩
    intro id0 hr
    rw [← h1] at hr
    exact OpResult.noConfusion hr

lemma run_ids : ∀ {ops : List Op} {m : MemoryManager} {rs : List OpResult}
    {m' : MemoryManager}, run m ops = .ok (rs, m') →
    m.next_id ≤ m'.next_id ∧ (∀ i ∈ allocIds rs, m.next_id ≤ i) ∧
      (allocIds rs).Pairwise (· < ·) := by
  intro ops
  induction ops with
  | nil =>
    intro m rs m' h
    unfold run at h
    injection h with h
    injection h with h1 h2
    subst h2
    subst h1
    exact ⟨Nat.le_refl _, fun i hi => absurd hi (List.not_mem_nil i), List.Pairwise.nil⟩
  | cons op ops ih =>
    intro m rs m' h
    unfold run at h
    split at h
    · exact Except.noConfusion h
    · next r m1 heq =>
      split at h
      · exact Except.noConfusion h
      · next rs2 m2 heq2 =>
        injection h with h
        injection h with h1 h2
        subst h2
        subst h1
        obtain ⟨hle1, hids1, hpw⟩ := ih heq2
        obtain ⟨hle0, halloc⟩ := applyOp_nextId heq
        cases r with
        | allocOk id =>
          obtain ⟨hid, hnext⟩ := halloc id rfl
          refine ⟨by omega, ?_, ?_⟩
          · intro i hi
            rcases List.mem_cons.1 hi with h3 | h3
            · omega
            · have := hids1 i h3
              omega
          · refine List.pairwise_cons.2 ⟨?_, hpw⟩
            intro i hi
            have := hids1 i hi
            omega
        | allocFail =>
          exact ⟨Nat.le_trans hle0 hle1, fun i hi => Nat.le_trans hle0 (hids1 i hi), hpw⟩
        | deleteOk =>
          exact ⟨Nat.le_trans hle0 hle1, fun i hi => Nat.le_trans hle0 (hids1 i hi), hpw⟩
        | deleteNotFound =>
          exact ⟨Nat.le_trans hle0 hle1, fun i hi => Nat.le_trans hle0 (hids1 i hi), hpw⟩
        | updateOk =>
          exact ⟨Nat.le_trans hle0 hle1, fun i hi => Nat.le_trans hle0 (hids1 i hi), hpw⟩
        | updateTooLarge =>
          exact ⟨Nat.le_trans hle0 hle1, fun i hi => Nat.le_trans hle0 (hids1 i hi), hpw⟩
        | updateNotFound =>
          exact ⟨Nat.le_trans hle0 hle1, fun i hi => Nat.le_trans hle0 (hids1 i hi), hpw⟩
        | findRes r0 =>
          exact ⟨Nat.le_trans hle0 hle1, fun i hi => Nat.le_trans hle0 (hids1 i hi), hpw⟩
        | readRes r0 =>
          exact ⟨Nat.le_trans hle0 hle1, fun i hi => Nat.le_trans hle0 (hids1 i hi), hpw⟩
        | dumped =>
          exact ⟨Nat.le_trans hle0 hle1, fun i hi => Nat.le_trans hle0 (hids1 i hi), hpw⟩

lemma sumSizes_append (a b : List MemoryBlock) :
    sumSizes (a ++ b) = sumSizes a + sumSizes b := by
  simp [sumSizes]

/-! ### The claims -/

/-- Claim C1: among all free-block size groups with size at least the
request, `bestFit` (the selection performed by `insert`) picks the group
with the smallest size; concretely, with free sizes {10, 50, 100} and a
request of 40, the 50-block is chosen, yielding an allocated block of size
40 and one new free block of size 10 in the free index. -/
theorem c1_best_fit :
    (∀ (fb : FreeMap) (size : Nat) (p : Nat × List MemoryBlock),
      bestFit fb size = some p →
        size ≤ p.1 ∧ ∀ q ∈ fb, size ≤ q.1 → p.1 ≤ q.1) ∧
    insertObs bestFitScenario 40 (List.replicate 40 65) =
      some (some 0,
        [(10, [⟨0, 10, false, none⟩, ⟨50, 10, false, none⟩]),
         (100, [⟨60, 100, false, none⟩])],
        [(0, ⟨10, 40, true, some 0⟩)]) := by
  constructor
  · intro fb size p h
    exact ⟨(bestFit_mem h).2, bestFit_min h⟩
  · rfl

/-- Witness for C1 at the scenario state: the group of size 50 is the best
fit for a request of 40. -/
theorem c1_best_fit_witness :
    40 ≤ 50 ∧ (∀ q ∈ bestFitScenario.free_blocks, 40 ≤ q.1 → 50 ≤ q.1) :=
  c1_best_fit.1 bestFitScenario.free_blocks 40 (50, [⟨10, 50, false, none⟩]) rfl

/-- Claim C2: after any trace from the fresh manager, the sum of free plus
allocated block sizes is at most the capacity, with equality whenever no
allocation attempt failed (indeed the sum is always exactly the capacity). -/
theorem c2_conservation {ops : List Op} {rs : List OpResult} {m' : MemoryManager}
    (h : run MemoryManager.new ops = .ok (rs, m')) :
    sumSizes (freeListFB m'.free_blocks) + sumSizes (allocListAB m'.allocated_blocks) ≤
        MEMORY_SIZE ∧
      (OpResult.allocFail ∉ rs →
        sumSizes (freeListFB m'.free_blocks) + sumSizes (allocListAB m'.allocated_blocks)
          = MEMORY_SIZE) := by
  have hc := (WF_run WF_new h).conserv
  rw [show m'.liveBlocks = freeListFB m'.free_blocks ++ allocListAB m'.allocated_blocks
    from rfl, sumSizes_append] at hc
  exact ⟨Nat.le_of_eq hc, fun _ => hc⟩

/-- Witness for C2 on the one-command trace `DUMP`. -/
theorem c2_conservation_witness :
    sumSizes (freeListFB MemoryManager.new.free_blocks) +
        sumSizes (allocListAB MemoryManager.new.allocated_blocks) ≤ MEMORY_SIZE ∧
      (OpResult.allocFail ∉ [OpResult.dumped] →
        sumSizes (freeListFB MemoryManager.new.free_blocks) +
          sumSizes (allocListAB MemoryManager.new.allocated_blocks) = MEMORY_SIZE) :=
  @c2_conservation [Op.dump] [OpResult.dumped] MemoryManager.new rfl

/-- Claim C3: in every state reachable from the fresh manager, the extents
of the live blocks (free and allocated) are pairwise non-intersecting. -/
theorem c3_non_overlap {ops : List Op} {rs : List OpResult} {m' : MemoryManager}
    (h : run MemoryManager.new ops = .ok (rs, m')) :
    m'.liveBlocks.Pairwise (fun a b => ¬ extentsIntersect a b) :=
  ((WF_run WF_new h).disj).imp (fun hx => disjoint_not_intersect hx)

/-- Witness for C3 on the one-command trace `FIND 0`. -/
theorem c3_non_overlap_witness :
    MemoryManager.new.liveBlocks.Pairwise (fun a b => ¬ extentsIntersect a b) :=
  @c3_non_overlap [Op.find 0] [OpResult.findRes none] MemoryManager.new rfl

/-- Claim C4 (code bug): `insert(1, [65, 66])` on the fresh manager is the
spec's "data longer than size" case; the code panics in `copy_from_slice`
(modelled `Except.error ()`) instead of returning a failure and leaving the
state unchanged. -/
theorem c4_oversized_data_panics :
    MemoryManager.new.insert 1 [65, 66] = Except.error () ∧
    insertObs MemoryManager.new 1 [65, 66] = none := ⟨rfl, rfl⟩

/-- Claim C5: over any trace from the fresh manager, the ids returned by the
successful allocations are strictly increasing in order of return, hence
no id is ever assigned twice. -/
theorem c5_id_monotonic {ops : List Op} {rs : List OpResult}
    (h : runResults ops = some rs) :
    (allocIds rs).Pairwise (· < ·) ∧ (allocIds rs).Nodup := by
  unfold runResults at h
  split at h
  · next rs2 m' heq =>
    injection h with h
    subst h
    have h3 := (run_ids heq).2.2
    exact ⟨h3, h3.imp (fun hx => Nat.ne_of_lt hx)⟩
  · exact Option.noConfusion h

/-- Witness for C5 on a trace performing three allocations and one free. -/
theorem c5_id_monotonic_witness :
    (allocIds [OpResult.allocOk 0, OpResult.allocOk 1, OpResult.deleteOk,
      OpResult.allocOk 2]).Pairwise (· < ·) ∧
    (allocIds [OpResult.allocOk 0, OpResult.allocOk 1, OpResult.deleteOk,
      OpResult.allocOk 2]).Nodup :=
  @c5_id_monotonic
    [Op.insert 1 [65], Op.insert 2 [65, 66], Op.delete 0, Op.insert 1 [67]]
    [OpResult.allocOk 0, OpResult.allocOk 1, OpResult.deleteOk, OpResult.allocOk 2] rfl

/-- Claim C6: `update` with data of exactly the block's size succeeds and
overwrites exactly `[start, start + len)`; data one byte longer fails with
the too-large error and leaves the state unchanged; an absent id fails with
not-found and leaves the state unchanged. -/
theorem c6_update_boundary :
    (∀ (m : MemoryManager) (id : Nat) (block : MemoryBlock) (data : List Nat),
      mapLookup m.allocated_blocks id = some block →
      data.length = block.size →
      block.start + block.size ≤ MEMORY_SIZE →
      m.update id data = .ok (.updated,
        { m with memory := fun i =>
            if block.start ≤ i ∧ i < block.start + data.length then
              data.getD (i - block.start) 0
            else m.memory i })) ∧
    (∀ (m : MemoryManager) (id : Nat) (block : MemoryBlock) (data : List Nat),
      mapLookup m.allocated_blocks id = some block →
      data.length = block.size + 1 →
      m.update id data = .ok (.tooLarge, m)) ∧
    (∀ (m : MemoryManager) (id : Nat) (data : List Nat),
      mapLookup m.allocated_blocks id = none →
      m.update id data = .ok (.notFound, m)) := by
  refine ⟨?_, ?_, ?_⟩
  · intro m id block data hlk hlen hbound
    have hcp : copyFromSlice m.memory block.start data.length data =
        some (fun i =>
          if block.start ≤ i ∧ i < block.start + data.length then
            data.getD (i - block.start) 0
          else m.memory i) := by
      unfold copyFromSlice
      rw [if_pos ⟨by omega, rfl⟩]
    simp only [MemoryManager.update, hlk]
    rw [if_pos (by omega : data.length ≤ block.size), hcp]
  · intro m id block data hlk hlen
    simp only [MemoryManager.update, hlk]
    rw [if_neg (by omega)]
  · intro m id data hlk
    simp only [MemoryManager.update, hlk]

/-- Witness for C6 at a state holding one block of size 2 at offset 0. -/
theorem c6_update_boundary_witness :
    updateScenario.update 0 [7, 8] = .ok (.updated,
      { updateScenario with memory := fun i =>
          if 0 ≤ i ∧ i < 0 + ([7, 8] : List Nat).length then
            ([7, 8] : List Nat).getD (i - 0) 0
          else updateScenario.memory i }) ∧
    updateScenario.update 0 [7, 8, 9] = .ok (.tooLarge, updateScenario) ∧
    updateScenario.update 1 [7] = .ok (.notFound, updateScenario) :=
  ⟨c6_update_boundary.1 updateScenario 0 ⟨0, 2, true, some 0⟩ [7, 8] rfl rfl (by decide),
   c6_update_boundary.2.1 updateScenario 0 ⟨0, 2, true, some 0⟩ [7, 8, 9] rfl rfl,
   c6_update_boundary.2.2 updateScenario 1 [7] rfl⟩

/-- Claim C7: freeing an allocated block inserts exactly one free block with
the same extent and merges nothing (the free-block multiset only grows by
that one block); in the concrete scenario, freeing the adjacent blocks
[0,10) and [10,30) leaves two separate free entries, and a request of 25 —
larger than each individually but within their combined 30 bytes — fails
with an allocation failure. -/
theorem c7_no_coalescing :
    (∀ (m : MemoryManager) (id : Nat) (block : MemoryBlock) (ab' : AllocMap),
      mapRemove m.allocated_blocks id = (some block, ab') →
      List.Perm (freeListFB (m.delete id).2.free_blocks)
        ((⟨block.start, block.size, false, none⟩ : MemoryBlock) ::
          freeListFB m.free_blocks) ∧
      freeCount (m.delete id).2 = freeCount m + 1) ∧
    runObs fragScenario
        [Op.delete 0, Op.delete 1, Op.insert 25 (List.replicate 25 65)] =
      some ([OpResult.deleteOk, OpResult.deleteOk, OpResult.allocFail],
        [(10, [⟨0, 10, false, none⟩]), (20, [⟨10, 20, false, none⟩])],
        [(2, ⟨30, 65505, true, some 2⟩)]) ∧
    10 < 25 ∧ 20 < 25 ∧ 25 ≤ 10 + 20 := by
  refine ⟨?_, rfl, by omega, by omega, by omega⟩
  intro m id block ab' hrm
  unfold MemoryManager.delete
  rw [hrm]
  simp only
  constructor
  · exact freeList_entryPush _ _ _
  · unfold freeCount
    have h1 := (freeList_entryPush block.size
      ⟨block.start, block.size, false, none⟩ m.free_blocks).length_eq
    simp only [List.length_cons] at h1
    simp only
    omega

/-- Witness for C7: freeing block id 0 of the scenario state adds exactly one
free block [0,10). -/
theorem c7_no_coalescing_witness :
    List.Perm (freeListFB (fragScenario.delete 0).2.free_blocks)
      ((⟨0, 10, false, none⟩ : MemoryBlock) :: freeListFB fragScenario.free_blocks) ∧
    freeCount (fragScenario.delete 0).2 = freeCount fragScenario + 1 :=
  c7_no_coalescing.1 fragScenario 0 ⟨0, 10, true, some 0⟩
    [(1, ⟨10, 20, true, some 1⟩), (2, ⟨30, 65505, true, some 2⟩)] rfl

/-- Claim C8 (code bug): `read` performs the same lookup as `find` and both
report not-found for an absent id, but on a present id `read` displays the
`MemoryBlock` descriptor returned by the lookup rather than the byte view
`[start, start + size)` that `find` yields. -/
theorem c8_read_shows_descriptor :
    readScenario.read 0 = ReadOutput.dataAt 0 ⟨0, 1, true, some 0⟩ ∧
    readScenario.find 0 = Except.ok (some [65]) ∧
    readScenario.read 5 = ReadOutput.notFound 5 ∧
    readScenario.find 5 = Except.ok none := ⟨rfl, rfl, rfl, rfl⟩

/-- Claim C10: when a best-fit group with an available block exists and the
data length differs from the requested size, the byte copy panics, so a
successful allocation always has data of exactly the requested length. -/
theorem c10_exact_length_only :
    (∀ (m : MemoryManager) (size : Nat) (data : List Nat) (bs : Nat)
      (blocks : List MemoryBlock) (block : MemoryBlock),
      bestFit m.free_blocks size = some (bs, blocks) →
      blocks.getLast? = some block →
      data.length ≠ size →
      m.insert size data = Except.error ()) ∧
    (∀ (m : MemoryManager) (size : Nat) (data : List Nat) (id : Nat)
      (m' : MemoryManager),
      m.insert size data = .ok (some id, m') → data.length = size) := by
  constructor
  · intro m size data bs blocks block hbf hgl hne
    have hcp : copyFromSlice m.memory block.start size data = none := by
      unfold copyFromSlice
      rw [if_neg]
      intro hcond
      exact hne hcond.2
    simp only [MemoryManager.insert, hbf, hgl, hcp]
  · intro m size data id m' h
    unfold MemoryManager.insert at h
    split at h
    · injection h with h
      injection h with h1 h2
      exact Option.noConfusion h1
    · split at h
      · injection h with h
        injection h with h1 h2
        exact Option.noConfusion h1
      · split at h
        · exact Except.noConfusion h
        · next mem' hcp =>
          unfold copyFromSlice at hcp
          split at hcp
          · next hcond => exact hcond.2
          · exact Option.noConfusion hcp

/-- Witness for C10: one byte of data for a two-byte request panics. -/
theorem c10_exact_length_only_witness :
    MemoryManager.new.insert 2 [65] = Except.error () :=
  c10_exact_length_only.1 MemoryManager.new 2 [65] MEMORY_SIZE
    [⟨0, MEMORY_SIZE, false, none⟩] ⟨0, MEMORY_SIZE, false, none⟩ rfl rfl (by decide)

/-! ### Claim C9: malformed numeric arguments at the dispatcher -/

lemma processFile_cons_pref {m : MemoryManager} {line : List Char} {p : List Msg}
    (h : dispatchLine m line = .ok (p, [], m)) (ls : List (List Char)) :
    processFile m (line :: ls) = prependMsgs p (processFile m ls) := by
  simp only [processFile]
  rw [h]
  dsimp only
  cases hr : processFile m ls with
  | error e => rfl
  | ok t =>
    rcases t with ⟨msgs, calls, mf⟩
    rfl

lemma dispatchLine_insert_nonnumeric {m : MemoryManager} {line s d : List Char}
    {rest : List (List Char)}
    (htok : splitWhitespace line = "INSERT".data :: s :: d :: rest)
    (hparse : parseUsize s = none) :
    dispatchLine m line = .ok ([Msg.processingLine line], [], m) := by
  have hlen : ¬ (("INSERT".data :: s :: d :: rest).length < 3) := by
    simp only [List.length_cons]
    omega
  unfold dispatchLine
  rw [htok]
  simp +decide only [hlen, hparse, List.getD_cons_succ, List.getD_cons_zero, if_true, if_false, false_and, true_and]

lemma dispatchLine_delete_nonnumeric {m : MemoryManager} {line s : List Char}
    {rest : List (List Char)}
    (htok : splitWhitespace line = "DELETE".data :: s :: rest)
    (hparse : parseUsize s = none) :
    dispatchLine m line = .ok ([Msg.processingLine line], [], m) := by
  have hlen : ¬ (("DELETE".data :: s :: rest).length < 2) := by
    simp only [List.length_cons]
    omega
  unfold dispatchLine
  rw [htok]
  simp +decide only [hlen, hparse, List.getD_cons_succ, List.getD_cons_zero, if_true, if_false, false_and, true_and]

lemma dispatchLine_find_nonnumeric {m : MemoryManager} {line s : List Char}
    {rest : List (List Char)}
    (htok : splitWhitespace line = "FIND".data :: s :: rest)
    (hparse : parseUsize s = none) :
    dispatchLine m line = .ok ([Msg.processingLine line], [], m) := by
  have hlen : ¬ (("FIND".data :: s :: rest).length < 2) := by
    simp only [List.length_cons]
    omega
  unfold dispatchLine
  rw [htok]
  simp +decide only [hlen, hparse, List.getD_cons_succ, List.getD_cons_zero, if_true, if_false, false_and, true_and]

lemma dispatchLine_update_nonnumeric {m : MemoryManager} {line s d : List Char}
    {rest : List (List Char)}
    (htok : splitWhitespace line = "UPDATE".data :: s :: d :: rest)
    (hparse : parseUsize s = none) :
    dispatchLine m line = .ok ([Msg.processingLine line], [], m) := by
  have hlen : ¬ (("UPDATE".data :: s :: d :: rest).length < 3) := by
    simp only [List.length_cons]
    omega
  have hlen2 : ¬ (("UPDATE".data :: s :: d :: rest).length < 2) := by
    simp only [List.length_cons]
    omega
  unfold dispatchLine
  rw [htok]
  simp +decide only [hlen, hlen2, hparse, List.getD_cons_succ, List.getD_cons_zero, if_true, if_false, false_and, true_and]

lemma dispatchLine_read_nonnumeric {m : MemoryManager} {line s : List Char}
    (htok : splitWhitespace line = ["READ".data, s])
    (hparse : parseUsize s = none) :
    dispatchLine m line =
      .ok ([Msg.processingLine line, Msg.invalidReadFormat], [], m) := by
  unfold dispatchLine
  rw [htok]
  simp +decide only [hparse, List.getD_cons_succ, List.getD_cons_zero, List.length_cons, if_true, if_false, false_and, true_and]

/-- Claim C9, corrected: a non-numeric size or id argument makes the
dispatcher issue no allocator call, skip the record and continue with the
next record (the state is passed through unchanged), but no error is
reported for `INSERT`, `DELETE`, `FIND` and `UPDATE` (only the
`Processing line` echo appears); only `READ` with exactly one argument
reports an error for a non-numeric id. -/
theorem c9_nonnumeric_silent_skip :
    (∀ (m : MemoryManager) (line s d : List Char) (rest : List (List Char))
      (ls : List (List Char)),
      splitWhitespace line = "INSERT".data :: s :: d :: rest →
      parseUsize s = none →
      processFile m (line :: ls) =
        prependMsgs [Msg.processingLine line] (processFile m ls)) ∧
    (∀ (m : MemoryManager) (line s : List Char) (rest : List (List Char))
      (ls : List (List Char)),
      splitWhitespace line = "DELETE".data :: s :: rest →
      parseUsize s = none →
      processFile m (line :: ls) =
        prependMsgs [Msg.processingLine line] (processFile m ls)) ∧
    (∀ (m : MemoryManager) (line s : List Char) (rest : List (List Char))
      (ls : List (List Char)),
      splitWhitespace line = "FIND".data :: s :: rest →
      parseUsize s = none →
      processFile m (line :: ls) =
        prependMsgs [Msg.processingLine line] (processFile m ls)) ∧
    (∀ (m : MemoryManager) (line s d : List Char) (rest : List (List Char))
      (ls : List (List Char)),
      splitWhitespace line = "UPDATE".data :: s :: d :: rest →
      parseUsize s = none →
      processFile m (line :: ls) =
        prependMsgs [Msg.processingLine line] (processFile m ls)) ∧
    (∀ (m : MemoryManager) (line s : List Char) (ls : List (List Char)),
      splitWhitespace line = ["READ".data, s] →
      parseUsize s = none →
      processFile m (line :: ls) =
        prependMsgs [Msg.processingLine line, Msg.invalidReadFormat]
          (processFile m ls)) := by
  refine ⟨?_, ?_, ?_, ?_, ?_⟩
  · intro m line s d rest ls htok hparse
    exact processFile_cons_pref (dispatchLine_insert_nonnumeric htok hparse) ls
  · intro m line s rest ls htok hparse
    exact processFile_cons_pref (dispatchLine_delete_nonnumeric htok hparse) ls
  · intro m line s rest ls htok hparse
    exact processFile_cons_pref (dispatchLine_find_nonnumeric htok hparse) ls
  · intro m line s d rest ls htok hparse
    exact processFile_cons_pref (dispatchLine_update_nonnumeric htok hparse) ls
  · intro m line s ls htok hparse
    exact processFile_cons_pref (dispatchLine_read_nonnumeric htok hparse) ls

/-- Counterexample to C9 as stated: on the record `INSERT x a` (non-numeric
size) the dispatcher makes no call and skips the record, but its only
output is the `Processing line` echo — no error is reported. -/
theorem c9_counterexample :
    dispatchLine MemoryManager.new "INSERT x a".data =
      .ok ([Msg.processingLine "INSERT x a".data], [], MemoryManager.new) ∧
    (Msg.processingLine "INSERT x a".data).isError = false := ⟨rfl, rfl⟩

/-- Witness for the corrected C9: the record `INSERT x a` is silently
skipped and processing continues with the remaining records. -/
theorem c9_nonnumeric_silent_skip_witness :
    processFile MemoryManager.new ["INSERT x a".data, "DUMP".data] =
      prependMsgs [Msg.processingLine "INSERT x a".data]
        (processFile MemoryManager.new ["DUMP".data]) :=
  c9_nonnumeric_silent_skip.1 MemoryManager.new "INSERT x a".data "x".data "a".data
    [] ["DUMP".data] rfl rfl
